import Mathlib

/-!
Formal model of qsim's `ParallelForT` (src/lib/parfor.h).

`ParallelForT<MIN_SIZE>` is a static range-partitioning parallel-for and
reduction primitive.  We embed it shallowly: the template parameter
`MIN_SIZE` becomes an explicit `msz : Nat` argument, `uint64_t` arithmetic
is `Nat` arithmetic reduced modulo `U64 = 2^64` exactly where the machine
multiplication can wrap, and the `unsigned` increment `thread_id + 1` is
reduced modulo `U32 = 2^32`.  The OpenMP runtime is modelled by an explicit
`granted` parameter: inside a parallel region every thread observes the same
`omp_get_num_threads() = granted`, with the runtime contract
`1 ≤ granted ≤ num_threads` stated as a hypothesis where a theorem needs it.
Side-effect-only dispatch (`Run`) is modelled by the list of argument triples
`(n, m, i)` passed to the callback, grouped by worker id and in increasing
index order inside each worker (across workers the real execution may
interleave these calls arbitrarily; the multiset of calls is what the code
determines).  Reductions are modelled over result type `Int`.
-/

namespace qsim

/-- Modulus of `uint64_t` arithmetic. -/
def U64 : Nat := 2 ^ 64

/-- Modulus of `unsigned` (32-bit) arithmetic. -/
def U32 : Nat := 2 ^ 32

/-- `ParallelForT<msz>::GetIndex0(size, num_threads, thread_id)`:
`size >= msz ? size * thread_id / num_threads : 0`, with the `uint64_t`
product reduced mod `2^64`. -/
def GetIndex0 (msz size num_threads thread_id : Nat) : Nat :=
  if msz ≤ size then size * thread_id % U64 / num_threads else 0

/-- `ParallelForT<msz>::GetIndex1(size, num_threads, thread_id)`:
`size >= msz ? size * (thread_id + 1) / num_threads : size`, with the
`unsigned` increment reduced mod `2^32` and the `uint64_t` product reduced
mod `2^64`. -/
def GetIndex1 (msz size num_threads thread_id : Nat) : Nat :=
  if msz ≤ size then size * ((thread_id + 1) % U32) % U64 / num_threads else size

/-- The index list `[GetIndex0 .., GetIndex1 ..)` iterated by worker `m`
of `n` granted workers (the loop `for (i = i0; i < i1; ++i)`). -/
def idxList (msz size n m : Nat) : List Nat :=
  List.range' (GetIndex0 msz size n m) (GetIndex1 msz size n m - GetIndex0 msz size n m)

/-- Call trace of `ParallelForT<msz>::Run(num_threads, size, func, ...)`:
the list of `(n, m, i)` argument triples passed to `func`.  On the parallel
branch (`num_threads > 1 && size >= msz`) each of the `granted` workers
(`granted` models `omp_get_num_threads()`) iterates its own partition;
on the serial branch the calling thread passes `(1, 0, i)` for
`i = 0, …, size-1`. -/
def RunCalls (msz granted num_threads size : Nat) : List (Nat × Nat × Nat) :=
  if 1 < num_threads ∧ msz ≤ size then
    ((List.range granted).map
      (fun m => (idxList msz size granted m).map (fun i => (granted, m, i)))).flatten
  else
    (List.range size).map (fun i => (1, 0, i))

/-- `ParallelForT<msz>::RunReduceP(num_threads, size, func, op, ...)` over
result type `Int`.  On the parallel branch the vector is resized to
`num_threads` entries filled with `0`; each granted worker `m` folds
`acc = op acc (func granted m i)` over its partition starting from the
literal `0` and stores the result in slot `m` (the OpenMP contract
`granted ≤ num_threads` is assumed by the code; slots `granted ≤ m` keep
their fill value `0`).  With `0 < num_threads` but no parallel dispatch the
serial fold is returned as a one-element vector; with `num_threads = 0` the
vector stays empty. -/
def RunReduceP (msz granted num_threads size : Nat)
    (func : Nat → Nat → Nat → Int) (op : Int → Int → Int) : List Int :=
  if 1 < num_threads ∧ msz ≤ size then
    (List.range num_threads).map (fun m =>
      if m < granted then
        (idxList msz size granted m).foldl (fun acc i => op acc (func granted m i)) 0
      else 0)
  else if 0 < num_threads then
    [(List.range size).foldl (fun acc i => op acc (func 1 0 i)) 0]
  else []

/-- Call trace of `RunReduceP`: the `(n, m, i)` triples passed to `func`.
Each listed call also corresponds to exactly one invocation of `op`. -/
def RunReducePCalls (msz granted num_threads size : Nat) : List (Nat × Nat × Nat) :=
  if 1 < num_threads ∧ msz ≤ size then
    ((List.range granted).map
      (fun m => (idxList msz size granted m).map (fun i => (granted, m, i)))).flatten
  else if 0 < num_threads then
    (List.range size).map (fun i => (1, 0, i))
  else []

/-- `ParallelForT<msz>::RunReduce`: folds the partial results sequentially
with `op`, starting from the literal `0`. -/
def RunReduce (msz granted num_threads size : Nat)
    (func : Nat → Nat → Nat → Int) (op : Int → Int → Int) : Int :=
  (RunReduceP msz granted num_threads size func op).foldl op 0

/-- Generalisation of `RunReduceP` in which every occurrence of the literal
`0` seed (the resize fill value and the per-worker and serial accumulator
initialisers) is replaced by an explicit `seed`.  Used to compare the code
against the spec's identity-seeded description. -/
def RunReducePSeeded (msz : Nat) (seed : Int) (granted num_threads size : Nat)
    (func : Nat → Nat → Nat → Int) (op : Int → Int → Int) : List Int :=
  if 1 < num_threads ∧ msz ≤ size then
    (List.range num_threads).map (fun m =>
      if m < granted then
        (idxList msz size granted m).foldl (fun acc i => op acc (func granted m i)) seed
      else seed)
  else if 0 < num_threads then
    [(List.range size).foldl (fun acc i => op acc (func 1 0 i)) seed]
  else []

/-- Identity-seeded variant of `RunReduce`: the final fold also starts from
`seed`. -/
def RunReduceSeeded (msz : Nat) (seed : Int) (granted num_threads size : Nat)
    (func : Nat → Nat → Nat → Int) (op : Int → Int → Int) : Int :=
  (RunReducePSeeded msz seed granted num_threads size func op).foldl op seed

/-- Spec-side reference semantics: the sequential fold of `op` over a work
function `w` (depending only on the index) applied to every index in
`[0, size)`, starting from `0`. -/
def seqReduceSpec (size : Nat) (w : Nat → Int) (op : Int → Int → Int) : Int :=
  (List.range size).foldl (fun acc i => op acc (w i)) 0

/-- Checked `GetIndex0`: returns `none` exactly when the branch taken by the
code divides by `num_threads = 0` (the `size >= msz` branch has no zero
guard; the other branch performs no division). -/
def GetIndex0Checked (msz size num_threads thread_id : Nat) : Option Nat :=
  if msz ≤ size then
    if num_threads = 0 then none else some (size * thread_id % U64 / num_threads)
  else some 0

/-- Checked `GetIndex1`, as `GetIndex0Checked`. -/
def GetIndex1Checked (msz size num_threads thread_id : Nat) : Option Nat :=
  if msz ≤ size then
    if num_threads = 0 then none
    else some (size * ((thread_id + 1) % U32) % U64 / num_threads)
  else some size

/-- Checked partition index list: defined only when both bounds are. -/
def idxListChecked (msz size n m : Nat) : Option (List Nat) :=
  match GetIndex0Checked msz size n m, GetIndex1Checked msz size n m with
  | some a, some b => some (List.range' a (b - a))
  | _, _ => none

/-- Collects a list of options, failing if any entry is `none`. -/
def allSome {α : Type} : List (Option α) → Option (List α)
  | [] => some []
  | none :: _ => none
  | some a :: l => Option.map (fun r => a :: r) (allSome l)

/-- Checked call trace of `Run`: `none` if any worker's partition bounds
divide by zero. -/
def RunCallsChecked (msz granted num_threads size : Nat) :
    Option (List (Nat × Nat × Nat)) :=
  if 1 < num_threads ∧ msz ≤ size then
    Option.map List.flatten (allSome ((List.range granted).map (fun m =>
      Option.map (fun l => l.map (fun i => (granted, m, i)))
        (idxListChecked msz size granted m))))
  else some ((List.range size).map (fun i => (1, 0, i)))

/-! ### Helper lemmas about the partition arithmetic -/

/-- Below the parallel threshold `GetIndex0` ignores all its arguments. -/
theorem getIndex0_of_lt (msz size nt tid : Nat) (h : size < msz) :
    GetIndex0 msz size nt tid = 0 := by
  unfold GetIndex0
  rw [if_neg (Nat.not_le.2 h)]

/-- Below the parallel threshold `GetIndex1` returns the full size. -/
theorem getIndex1_of_lt (msz size nt tid : Nat) (h : size < msz) :
    GetIndex1 msz size nt tid = size := by
  unfold GetIndex1
  rw [if_neg (Nat.not_le.2 h)]

/-- Above the threshold and absent 64-bit wrap, `GetIndex0` is the exact
floor formula. -/
theorem getIndex0_exact (msz size wc m : Nat) (hs : msz ≤ size)
    (hov : size * wc < U64) (hm : m ≤ wc) :
    GetIndex0 msz size wc m = size * m / wc := by
  unfold GetIndex0
  rw [if_pos hs, Nat.mod_eq_of_lt]
  exact Nat.lt_of_le_of_lt (Nat.mul_le_mul (Nat.le_refl size) hm) hov

/-- Above the threshold, absent 64-bit wrap and with a representable worker
count, `GetIndex1` is the exact floor formula. -/
theorem getIndex1_exact (msz size wc m : Nat) (hs : msz ≤ size)
    (hov : size * wc < U64) (h32 : wc < U32) (hm : m < wc) :
    GetIndex1 msz size wc m = size * (m + 1) / wc := by
  unfold GetIndex1
  have h1 : m + 1 ≤ wc := hm
  have h2 : (m + 1) % U32 = m + 1 :=
    Nat.mod_eq_of_lt (Nat.lt_of_le_of_lt h1 h32)
  rw [if_pos hs, h2, Nat.mod_eq_of_lt]
  exact Nat.lt_of_le_of_lt (Nat.mul_le_mul (Nat.le_refl size) h1) hov

/-- The exact boundary function is monotone. -/
theorem boundary_mono (size wc : Nat) {a b : Nat} (h : a ≤ b) :
    size * a / wc ≤ size * b / wc :=
  Nat.div_le_div_right (Nat.mul_le_mul (Nat.le_refl size) h)

/-- Concatenation of the blocks `[b 0, b 1), [b 1, b 2), …, [b (n-1), b n)`. -/
def blocksUpTo (b : Nat → Nat) : Nat → List Nat
  | 0 => []
  | n + 1 => blocksUpTo b n ++ List.range' (b n) (b (n + 1) - b n)

/-- For a monotone boundary function starting at `0`, the concatenated
blocks are exactly `[0, b n)`. -/
theorem blocksUpTo_eq_range' (b : Nat → Nat) (h0 : b 0 = 0)
    (mono : ∀ m, b m ≤ b (m + 1)) : ∀ n, blocksUpTo b n = List.range' 0 (b n) := by
  intro n
  induction n with
  | zero => simp [blocksUpTo, h0]
  | succ n ih =>
    show blocksUpTo b n ++ List.range' (b n) (b (n + 1) - b n) = _
    rw [ih]
    have := List.range'_append 0 (b n) (b (n + 1) - b n) 1
    simp only [Nat.one_mul, Nat.zero_add] at this
    rw [this, Nat.sub_add_cancel (mono n)]

/-- Membership in the concatenated blocks of a monotone boundary function. -/
theorem mem_blocksUpTo (b : Nat → Nat) (mono : ∀ m, b m ≤ b (m + 1)) :
    ∀ n i, i ∈ blocksUpTo b n ↔ ∃ m, m < n ∧ b m ≤ i ∧ i < b (m + 1) := by
  intro n i
  induction n with
  | zero => simp [blocksUpTo]
  | succ n ih =>
    show i ∈ blocksUpTo b n ++ List.range' (b n) (b (n + 1) - b n) ↔ _
    rw [List.mem_append, ih, List.mem_range'_1, Nat.add_sub_cancel' (mono n)]
    constructor
    · rintro (⟨m, hm, h1, h2⟩ | ⟨h1, h2⟩)
      · exact ⟨m, Nat.lt_succ_of_lt hm, h1, h2⟩
      · exact ⟨n, Nat.lt_succ_self n, h1, h2⟩
    · rintro ⟨m, hm, h1, h2⟩
      rcases Nat.lt_succ_iff_lt_or_eq.1 hm with h | h
      · exact Or.inl ⟨m, h, h1, h2⟩
      · subst h
        exact Or.inr ⟨h1, h2⟩

/-- Folding from an arbitrary seed factors through the seed, for an
associative operation with two-sided identity `0`. -/
theorem foldl_op_seed (op : Int → Int → Int) (w : Nat → Int)
    (hassoc : ∀ a b c : Int, op (op a b) c = op a (op b c))
    (hzl : ∀ x : Int, op 0 x = x) (hzr : ∀ x : Int, op x 0 = x) :
    ∀ (l : List Nat) (a : Int),
      l.foldl (fun x i => op x (w i)) a = op a (l.foldl (fun x i => op x (w i)) 0) := by
  intro l
  induction l with
  | nil =>
    intro a
    simp [hzr]
  | cons j t ih =>
    intro a
    simp only [List.foldl_cons]
    rw [ih (op a (w j)), ih (op 0 (w j)), hzl, ← hassoc]

/-- Folding the per-block partial results with `op` equals folding the work
values over the concatenated blocks. -/
theorem foldl_block_results (op : Int → Int → Int) (w : Nat → Int)
    (hassoc : ∀ a b c : Int, op (op a b) c = op a (op b c))
    (hzl : ∀ x : Int, op 0 x = x) (hzr : ∀ x : Int, op x 0 = x)
    (b : Nat → Nat) :
    ∀ g, ((List.range g).map (fun m =>
        (List.range' (b m) (b (m + 1) - b m)).foldl (fun x i => op x (w i)) 0)).foldl op 0
      = (blocksUpTo b g).foldl (fun x i => op x (w i)) 0 := by
  intro g
  induction g with
  | zero => rfl
  | succ g ih =>
    rw [List.range_succ g, List.map_append, List.foldl_append, ih]
    simp only [List.map_cons, List.map_nil, List.foldl_cons, List.foldl_nil]
    show _ = (blocksUpTo b g ++ List.range' (b g) (b (g + 1) - b g)).foldl _ 0
    rw [List.foldl_append,
      foldl_op_seed op w hassoc hzl hzr (List.range' (b g) (b (g + 1) - b g))
        ((blocksUpTo b g).foldl (fun x i => op x (w i)) 0)]

/-- The result slots past the granted worker count keep the fill value `0`
and do not change the final fold. -/
theorem foldl_pad_zero (op : Int → Int → Int) (hzr : ∀ x : Int, op x 0 = x)
    (q : Nat → Int) (g : Nat) :
    ∀ nt, g ≤ nt →
      ((List.range nt).map (fun m => if m < g then q m else 0)).foldl op 0
        = ((List.range g).map q).foldl op 0 := by
  intro nt
  induction nt with
  | zero =>
    intro h
    have hz : g = 0 := Nat.le_zero.1 h
    subst hz
    rfl
  | succ n ih =>
    intro h
    by_cases hgn : g ≤ n
    · rw [List.range_succ n, List.map_append, List.foldl_append]
      simp only [List.map_cons, List.map_nil, List.foldl_cons, List.foldl_nil]
      rw [if_neg (Nat.not_lt.2 hgn), hzr, ih hgn]
    · have hge : g = n + 1 := Nat.le_antisymm h (Nat.not_le.1 hgn)
      subst hge
      have hmap : (List.range (n + 1)).map (fun m => if m < n + 1 then q m else 0)
          = (List.range (n + 1)).map q :=
        List.map_congr_left (fun m hm => if_pos (List.mem_range.1 hm))
      rw [hmap]

/-! ### Claim C1: RunReduce refines the sequential reduction -/

/-- Claim C1 (amended).  For every requested worker count `nt ≥ 1`
representable as `unsigned`, every granted thread count `1 ≤ g ≤ nt` (the
OpenMP contract), every size with `size * nt < 2^64` (no 64-bit wrap),
every work function returning a value depending only on the index, and
every associative combine operation with two-sided identity `0`,
`RunReduce` equals the sequential fold of `op` over `w` applied to every
index in `[0, size)` starting from `0`.  As originally stated (for every
requested worker count, including `0`) the claim is false:
see the counterexample theorem. -/
theorem RunReduce_eq_seqReduceSpec (msz size nt g : Nat) (w : Nat → Int)
    (op : Int → Int → Int)
    (hassoc : ∀ a b c : Int, op (op a b) c = op a (op b c))
    (hzl : ∀ x : Int, op 0 x = x) (hzr : ∀ x : Int, op x 0 = x)
    (hnt : 1 ≤ nt) (h32 : nt < U32) (hg1 : 1 ≤ g) (hgn : g ≤ nt)
    (hov : size * nt < U64) :
    RunReduce msz g nt size (fun _ _ i => w i) op = seqReduceSpec size w op := by
  have hovg : size * g < U64 :=
    Nat.lt_of_le_of_lt (Nat.mul_le_mul (Nat.le_refl size) hgn) hov
  have h32g : g < U32 := Nat.lt_of_le_of_lt hgn h32
  unfold RunReduce RunReduceP
  by_cases hpar : 1 < nt ∧ msz ≤ size
  · rw [if_pos hpar]
    show ((List.range nt).map (fun m =>
        if m < g then (idxList msz size g m).foldl (fun acc i => op acc (w i)) 0
        else 0)).foldl op 0 = seqReduceSpec size w op
    have hq : ∀ m ∈ List.range nt,
        (if m < g then (idxList msz size g m).foldl (fun acc i => op acc (w i)) 0 else 0)
          = (if m < g then
              (List.range' (size * m / g) (size * (m + 1) / g - size * m / g)).foldl
                (fun acc i => op acc (w i)) 0
            else 0) := by
      intro m _
      by_cases hmg : m < g
      · rw [if_pos hmg, if_pos hmg]
        unfold idxList
        rw [getIndex0_exact msz size g m hpar.2 hovg (Nat.le_of_lt hmg),
            getIndex1_exact msz size g m hpar.2 hovg h32g hmg]
      · rw [if_neg hmg, if_neg hmg]
    rw [List.map_congr_left hq,
      foldl_pad_zero op hzr
        (fun m => (List.range' (size * m / g) (size * (m + 1) / g - size * m / g)).foldl
          (fun acc i => op acc (w i)) 0) g nt hgn]
    have hblocks := foldl_block_results op w hassoc hzl hzr (fun m => size * m / g) g
    simp only [] at hblocks
    rw [hblocks]
    have hmono : ∀ m, size * m / g ≤ size * (m + 1) / g :=
      fun m => boundary_mono size g (Nat.le_succ m)
    have hrange := blocksUpTo_eq_range' (fun m => size * m / g) (by simp) hmono g
    simp only [] at hrange
    rw [hrange, Nat.mul_div_cancel size hg1, ← List.range_eq_range' size]
    rfl
  · rw [if_neg hpar, if_pos (show 0 < nt from hnt)]
    simp only [List.foldl_cons, List.foldl_nil]
    rw [hzl]
    rfl

/-- Claim C1 witness: a concrete instance on the parallel path,
`msz = 1`, `size = 3`, `nt = g = 2`, `w i = i`, `op = (+)`. -/
theorem RunReduce_eq_seqReduceSpec_witness :
    RunReduce 1 2 2 3 (fun _ _ i => (i : Int)) (fun a b => a + b)
      = seqReduceSpec 3 (fun i => (i : Int)) (fun a b => a + b) :=
  RunReduce_eq_seqReduceSpec 1 3 2 2 (fun i => (i : Int)) (fun a b => a + b)
    (fun a b c => add_assoc a b c) (fun x => zero_add x) (fun x => add_zero x)
    (by decide) (by decide) (by decide) (by decide) (by decide)

/-- Claim C1 counterexample: with requested worker count `0`, `RunReduceP`
returns no slots and `RunReduce` returns `0`, while the sequential fold of
`w i = 1` over `[0, 1)` is `1`. -/
theorem RunReduce_zero_workers_ne_seq :
    RunReduce 1024 1 0 1 (fun _ _ _ => (1 : Int)) (fun a b => a + b)
      ≠ seqReduceSpec 1 (fun _ => (1 : Int)) (fun a b => a + b) := by
  decide

/-! ### Claim C2: partition coverage and disjointness -/

/-- Claim C2 (amended).  For every `size` at or above the parallel
threshold with `size * worker_count < 2^64` (no 64-bit wrap) and every
`unsigned`-representable `worker_count ≥ 1`, the per-worker ranges
`[GetIndex0 …, GetIndex1 …)` are pairwise disjoint and their union is
exactly `[0, size)`.  As originally stated (for every `size ≥ 0`) the
claim is false: below the threshold every worker's range is the whole
`[0, size)`, so the ranges overlap — see the counterexample theorem. -/
theorem ranges_cover_and_disjoint (msz size wc : Nat) (h1 : 1 ≤ wc)
    (h32 : wc < U32) (hs : msz ≤ size) (hov : size * wc < U64) :
    (∀ i, i < size ↔ ∃ m, m < wc ∧ GetIndex0 msz size wc m ≤ i ∧ i < GetIndex1 msz size wc m)
    ∧ (∀ a c i, a < c → c < wc →
        GetIndex0 msz size wc a ≤ i → i < GetIndex1 msz size wc a →
        ¬ (GetIndex0 msz size wc c ≤ i ∧ i < GetIndex1 msz size wc c)) := by
  have hmono : ∀ m, size * m / wc ≤ size * (m + 1) / wc :=
    fun m => boundary_mono size wc (Nat.le_succ m)
  constructor
  · intro i
    have hmem := mem_blocksUpTo (fun m => size * m / wc) hmono wc i
    have hrange := blocksUpTo_eq_range' (fun m => size * m / wc) (by simp) hmono wc
    simp only [] at hmem hrange
    rw [hrange, Nat.mul_div_cancel size h1] at hmem
    rw [List.mem_range'_1] at hmem
    constructor
    · intro hi
      obtain ⟨m, hm, hle, hlt⟩ := hmem.1 ⟨Nat.zero_le i, by omega⟩
      refine ⟨m, hm, ?_, ?_⟩
      · rw [getIndex0_exact msz size wc m hs hov (Nat.le_of_lt hm)]
        exact hle
      · rw [getIndex1_exact msz size wc m hs hov h32 hm]
        exact hlt
    · rintro ⟨m, hm, hle, hlt⟩
      rw [getIndex0_exact msz size wc m hs hov (Nat.le_of_lt hm)] at hle
      rw [getIndex1_exact msz size wc m hs hov h32 hm] at hlt
      have := hmem.2 ⟨m, hm, hle, hlt⟩
      omega
  · intro a c i hac hc hga hlta
    rintro ⟨hgc, -⟩
    rw [getIndex1_exact msz size wc a hs hov h32 (Nat.lt_trans hac hc)] at hlta
    rw [getIndex0_exact msz size wc c hs hov (Nat.le_of_lt hc)] at hgc
    have hchain : size * (a + 1) / wc ≤ size * c / wc := boundary_mono size wc hac
    omega

/-- Claim C2 witness: at `msz = 1`, `size = 3`, `wc = 2`, index `1` lies in
exactly the range of a worker below `2`, and the two workers' ranges do not
both contain index `1`. -/
theorem ranges_cover_and_disjoint_witness :
    ((1 : Nat) < 3 ↔ ∃ m, m < 2 ∧ GetIndex0 1 3 2 m ≤ 1 ∧ 1 < GetIndex1 1 3 2 m)
    ∧ ¬ (GetIndex0 1 3 2 1 ≤ 0 ∧ 0 < GetIndex1 1 3 2 1) :=
  ⟨(ranges_cover_and_disjoint 1 3 2 (by decide) (by decide) (by decide) (by decide)).1 1,
   (ranges_cover_and_disjoint 1 3 2 (by decide) (by decide) (by decide) (by decide)).2
     0 1 0 (by decide) (by decide) (by decide) (by decide)⟩

/-- Claim C2 counterexample: at `size = 1 < 1024` and `wc = 2` the ranges of
the two distinct workers both contain index `0` — they are not pairwise
disjoint, refuting the claim as stated for every `size ≥ 0`. -/
theorem ranges_overlap_below_threshold :
    ¬ (∀ a < 2, ∀ c < 2, a < c →
        ∀ i < 1, ¬ ((GetIndex0 1024 1 2 a ≤ i ∧ i < GetIndex1 1024 1 2 a)
                     ∧ (GetIndex0 1024 1 2 c ≤ i ∧ i < GetIndex1 1024 1 2 c))) :=
  fun h => h 0 (by decide) 1 (by decide) (by decide) 0 (by decide) (by decide)

/-! ### Claim C3: Run with zero requested workers -/

/-- Claim C3 (amended).  `Run` with requested worker count `0` takes the
serial branch: the work function is invoked exactly once per index in
`[0, size)`, in increasing order, with arguments `(1, 0, i)` — identical to
requesting one worker.  It is not a zero-iteration no-op; the claim as
stated is refuted by the counterexample theorem. -/
theorem run_zero_threads_serial (msz g size : Nat) :
    RunCalls msz g 0 size = (List.range size).map (fun i => (1, 0, i))
    ∧ RunCalls msz g 0 size = RunCalls msz g 1 size := by
  have hc0 : ¬ ((1 : Nat) < 0 ∧ msz ≤ size) := fun hcon => absurd hcon.1 (by decide)
  have hc1 : ¬ ((1 : Nat) < 1 ∧ msz ≤ size) := fun hcon => absurd hcon.1 (by decide)
  unfold RunCalls
  rw [if_neg hc0, if_neg hc1]
  exact ⟨rfl, rfl⟩

/-- Claim C3 counterexample: `Run(0, 1, func)` invokes `func` once, with
arguments `(1, 0, 0)` — not zero times. -/
theorem run_zero_threads_not_noop :
    RunCalls 1024 1 0 1 = [(1, 0, 0)] ∧ RunCalls 1024 1 0 1 ≠ [] := by
  decide

/-! ### Claim C4: partitioner below the threshold -/

/-- Claim C4 (amended).  For every `size` strictly below the threshold, the
partitioner returns the whole range `[0, size)` for every worker id — worker
`0`'s range is `[0, size)`, but the other ids' ranges are identical copies
of it, not empty.  Single-worker execution is enforced by the dispatcher,
whose serial branch invokes only worker `0` over `[0, size)`.  The original
claim (other ids' ranges empty) is refuted by the counterexample theorem. -/
theorem below_threshold_full_range (msz size : Nat) (h : size < msz) :
    (∀ wc m, GetIndex0 msz size wc m = 0 ∧ GetIndex1 msz size wc m = size)
    ∧ (∀ g nt, RunCalls msz g nt size = (List.range size).map (fun i => (1, 0, i))) := by
  constructor
  · intro wc m
    exact ⟨getIndex0_of_lt msz size wc m h, getIndex1_of_lt msz size wc m h⟩
  · intro g nt
    unfold RunCalls
    rw [if_neg]
    rintro ⟨-, hms⟩
    exact Nat.not_le.2 h hms

/-- Claim C4 witness: `size = 3 < 1024`, `wc = 8`, worker id `1`. -/
theorem below_threshold_full_range_witness :
    (GetIndex0 1024 3 8 1 = 0 ∧ GetIndex1 1024 3 8 1 = 3)
    ∧ RunCalls 1024 4 8 3 = (List.range 3).map (fun i => (1, 0, i)) :=
  ⟨(below_threshold_full_range 1024 3 (by decide)).1 8 1,
   (below_threshold_full_range 1024 3 (by decide)).2 4 8⟩

/-- Claim C4 counterexample: at `size = 3 < 1024`, `wc = 8`, worker `1`'s
range `[0, 3)` is not empty. -/
theorem below_threshold_other_worker_nonempty :
    ¬ (GetIndex1 1024 3 8 1 ≤ GetIndex0 1024 3 8 1) := by
  decide

/-! ### Claim C5: ranges are assigned in increasing worker-id order -/

/-- Claim C5 (amended).  For every `size` at or above the threshold with
`size * worker_count < 2^64` and every `unsigned`-representable worker
count, worker `a`'s range ends at or before worker `c`'s range begins
whenever `a < c < worker_count`.  As originally stated (every `size ≥ 0`)
the claim is false below the threshold — see the counterexample theorem. -/
theorem ranges_ordered (msz size wc a c : Nat) (hac : a < c) (hc : c < wc)
    (h32 : wc < U32) (hs : msz ≤ size) (hov : size * wc < U64) :
    GetIndex1 msz size wc a ≤ GetIndex0 msz size wc c := by
  rw [getIndex1_exact msz size wc a hs hov h32 (Nat.lt_trans hac hc),
      getIndex0_exact msz size wc c hs hov (Nat.le_of_lt hc)]
  exact boundary_mono size wc hac

/-- Claim C5 witness: `msz = 1`, `size = 3`, `wc = 2`, `a = 0 < c = 1`. -/
theorem ranges_ordered_witness :
    GetIndex1 1 3 2 0 ≤ GetIndex0 1 3 2 1 :=
  ranges_ordered 1 3 2 0 1 (by decide) (by decide) (by decide) (by decide) (by decide)

/-- Claim C5 counterexample: at `size = 1 < 1024`, `wc = 2`, worker `0`'s
range ends at `1`, after worker `1`'s range begins at `0`. -/
theorem ranges_ordered_fails_below_threshold :
    ¬ (GetIndex1 1024 1 2 0 ≤ GetIndex0 1024 1 2 1) := by
  decide

/-! ### Claim C6: RunReduceP with zero requested workers -/

/-- Claim C6.  `RunReduceP` with requested worker count `0` performs no
computation — the call trace of `func` (each entry of which also stands for
one invocation of `op`) is empty — and returns the empty partial-results
sequence, for every size, work function and combine operation. -/
theorem runReduceP_zero_threads_empty (msz g size : Nat)
    (func : Nat → Nat → Nat → Int) (op : Int → Int → Int) :
    RunReduceP msz g 0 size func op = [] ∧ RunReducePCalls msz g 0 size = [] := by
  have hc : ¬ ((1 : Nat) < 0 ∧ msz ≤ size) := fun hcon => absurd hcon.1 (by decide)
  have hz : ¬ ((0 : Nat) < 0) := by decide
  unfold RunReduceP RunReducePCalls
  rw [if_neg hc, if_neg hc, if_neg hz, if_neg hz]
  exact ⟨rfl, rfl⟩

/-! ### Claim C7: the serial fallback returns a singleton -/

/-- Claim C7.  Whenever `RunReduceP` takes the serial fallback branch
(requested worker count at least `1`, and either exactly `1` or a size
below the threshold), it returns exactly one partial result: the
sequential fold of `op` over `func 1 0 ·` applied to every index in
`[0, size)`, starting from `0`. -/
theorem runReduceP_serial_singleton (msz g nt size : Nat)
    (func : Nat → Nat → Nat → Int) (op : Int → Int → Int)
    (hnt : 1 ≤ nt) (hser : nt = 1 ∨ size < msz) :
    RunReduceP msz g nt size func op
      = [(List.range size).foldl (fun acc i => op acc (func 1 0 i)) 0] := by
  have hc : ¬ (1 < nt ∧ msz ≤ size) := by
    rintro ⟨hl, hr2⟩
    rcases hser with h | h
    · omega
    · exact Nat.not_le.2 h hr2
  unfold RunReduceP
  rw [if_neg hc, if_pos (show 0 < nt from hnt)]

/-- Claim C7 witness: `nt = 1`, `size = 2`, `func _ _ i = i`, `op = (+)`;
the returned sequence is the singleton `[0 + 0 + 1]`. -/
theorem runReduceP_serial_singleton_witness :
    RunReduceP 1024 1 1 2 (fun _ _ i => (i : Int)) (fun a b => a + b)
      = [(List.range 2).foldl (fun acc i => acc + (i : Int)) 0] :=
  runReduceP_serial_singleton 1024 1 1 2 (fun _ _ i => (i : Int)) (fun a b => a + b)
    (by decide) (Or.inl rfl)

/-! ### Claim C9: accumulators are seeded with the literal 0 -/

/-- Claim C9.  For every combine operation, `RunReduceP` equals its
seed-generalised form at seed `0` (every worker accumulator, the resize
fill value and the serial accumulator start at the literal `0`), and
likewise `RunReduce`'s final fold starts at the literal `0`; no op-supplied
identity is consulted.  Consequently the results deviate from the spec's
identity-seeded description when `0` is not an identity of `op`: for
`op a b = a + b + 1`, whose identity is `-1`, `RunReduce` differs from the
identity-seeded reduction. -/
theorem accumulators_seeded_zero :
    (∀ msz g nt size func op,
        RunReduceP msz g nt size func op = RunReducePSeeded msz 0 g nt size func op
        ∧ RunReduce msz g nt size func op = RunReduceSeeded msz 0 g nt size func op)
    ∧ ∃ op : Int → Int → Int, ∃ e : Int,
        (∀ x, op e x = x) ∧ (∀ x, op x e = x)
        ∧ RunReduce 0 1 1 1 (fun _ _ _ => 0) op
            ≠ RunReduceSeeded 0 e 1 1 1 (fun _ _ _ => 0) op := by
  constructor
  · intro msz g nt size func op
    exact ⟨rfl, rfl⟩
  · refine ⟨fun a b => a + b + 1, -1, ?_, ?_, ?_⟩
    · intro x
      ring
    · intro x
      ring
    · decide

/-! ### Claim C8: exact floor formulas and 64-bit wrap -/

/-- Claim C8 (amended).  For every `size` at or above the threshold with
`size * worker_count < 2^64` and every `unsigned`-representable worker
count, `GetIndex0` and `GetIndex1` compute the exact (unbounded-arithmetic)
floor formulas.  As originally stated (for every `size` above the
threshold) the claim is false: the 64-bit product wraps, e.g. at
`size = 2^63`, `worker_count = 2` — see the counterexample theorem. -/
theorem getIndex_exact_div (msz size wc m : Nat) (hs : msz ≤ size) (hm : m < wc)
    (h32 : wc < U32) (hov : size * wc < U64) :
    GetIndex0 msz size wc m = size * m / wc
    ∧ GetIndex1 msz size wc m = size * (m + 1) / wc :=
  ⟨getIndex0_exact msz size wc m hs hov (Nat.le_of_lt hm),
   getIndex1_exact msz size wc m hs hov h32 hm⟩

/-- Claim C8 witness: `msz = 1`, `size = 10`, `wc = 4`, `m = 1` gives the
exact boundaries `10 * 1 / 4 = 2` and `10 * 2 / 4 = 5`. -/
theorem getIndex_exact_div_witness :
    GetIndex0 1 10 4 1 = 10 * 1 / 4 ∧ GetIndex1 1 10 4 1 = 10 * (1 + 1) / 4 :=
  getIndex_exact_div 1 10 4 1 (by decide) (by decide) (by decide) (by decide)

/-- Claim C8 counterexample: at `size = 2^63 ≥ 1024`, `wc = 2`, `m = 1`,
the 64-bit product `2^63 * 2` wraps to `0`, so `GetIndex1` returns `0`
instead of the exact `2^63 * 2 / 2 = 2^63`. -/
theorem getIndex1_wraps_at_large_size :
    1024 ≤ 2 ^ 63 ∧ GetIndex1 1024 (2 ^ 63) 2 1 ≠ 2 ^ 63 * (1 + 1) / 2 := by
  decide

/-! ### Claim C10: the division by the thread count is safe -/

/-- All entries produced by an element-wise `some` collect successfully. -/
theorem allSome_map_some {α β : Type} (f : β → α) :
    ∀ l : List β, allSome (l.map (fun x => some (f x))) = some (l.map f) := by
  intro l
  induction l with
  | nil => rfl
  | cons x t ih =>
    simp only [List.map_cons, allSome, ih]
    rfl

/-- The checked partition bounds are defined for a positive thread count. -/
theorem idxListChecked_eq (msz size g m : Nat) (hg : 1 ≤ g) :
    idxListChecked msz size g m = some (idxList msz size g m) := by
  have hgz : g ≠ 0 := Nat.pos_iff_ne_zero.1 hg
  unfold idxListChecked idxList GetIndex0Checked GetIndex1Checked GetIndex0 GetIndex1
  by_cases hs : msz ≤ size
  · rw [if_pos hs, if_pos hs, if_pos hs, if_pos hs, if_neg hgz, if_neg hgz]
  · rw [if_neg hs, if_neg hs, if_neg hs, if_neg hs]

/-- Claim C10.  `GetIndex0`/`GetIndex1` divide by `num_threads` with no
zero guard on the `size ≥ msz` branch; under the precondition
`num_threads ≥ 1` — which OpenMP guarantees for the granted count used by
every call `Run` and `RunReduceP` make — the division is well-defined: the
checked variants never return the division-by-zero `none`, and the checked
call trace of `Run` is defined and agrees with the unchecked one. -/
theorem division_by_thread_count_safe (msz size g tid nt : Nat) (hg : 1 ≤ g) :
    GetIndex0Checked msz size g tid = some (GetIndex0 msz size g tid)
    ∧ GetIndex1Checked msz size g tid = some (GetIndex1 msz size g tid)
    ∧ RunCallsChecked msz g nt size = some (RunCalls msz g nt size) := by
  have hgz : g ≠ 0 := Nat.pos_iff_ne_zero.1 hg
  refine ⟨?_, ?_, ?_⟩
  · unfold GetIndex0Checked GetIndex0
    by_cases hs : msz ≤ size
    · rw [if_pos hs, if_pos hs, if_neg hgz]
    · rw [if_neg hs, if_neg hs]
  · unfold GetIndex1Checked GetIndex1
    by_cases hs : msz ≤ size
    · rw [if_pos hs, if_pos hs, if_neg hgz]
    · rw [if_neg hs, if_neg hs]
  · unfold RunCallsChecked RunCalls
    by_cases hpar : 1 < nt ∧ msz ≤ size
    · rw [if_pos hpar, if_pos hpar]
      have hmap : ∀ m ∈ List.range g,
          Option.map (fun l => l.map (fun i => (g, m, i))) (idxListChecked msz size g m)
            = some ((idxList msz size g m).map (fun i => (g, m, i))) := by
        intro m _
        rw [idxListChecked_eq msz size g m hg]
        rfl
      rw [List.map_congr_left hmap,
        allSome_map_some (fun m => (idxList msz size g m).map (fun i => (g, m, i)))
          (List.range g)]
      rfl
    · rw [if_neg hpar, if_neg hpar]

/-- Claim C10 witness: `msz = 1024`, `size = 2048`, granted count `2`,
worker id `1`, requested count `2`. -/
theorem division_by_thread_count_safe_witness :
    GetIndex0Checked 1024 2048 2 1 = some (GetIndex0 1024 2048 2 1)
    ∧ GetIndex1Checked 1024 2048 2 1 = some (GetIndex1 1024 2048 2 1)
    ∧ RunCallsChecked 1024 2 2 2048 = some (RunCalls 1024 2 2 2048) :=
  division_by_thread_count_safe 1024 2048 2 1 2 (by decide)

end qsim
